import Mathlib

/-!
Verification development for the NevisSearchAPI repository.

Shallow embedding of the search, embedding and summarization core
(`src/search.py`, `src/search_config.py`, `src/embeddings.py`,
`src/summarizer.py`, `src/crud.py`, `src/api.py`).

Modelling conventions:
* Python strings are Lean `String`s; lowercase/strip/contains/startswith are
  modelled character-wise on `List Char`.
* Python floats are modelled as `ℚ` (all scores in the source are produced by
  exact arithmetic on small constants).
* Database queries are modelled by giving each search function the table rows
  it would receive: the SQL `WHERE`/`ORDER BY`/`LIMIT` clauses are embedded as
  `List.filter`/stable sort/`List.take` over the row list.  The pgvector
  cosine-similarity rows of the semantic search arrive as `(document,
  similarity)` pairs already ordered closest-first, as the database returns
  them.
* The external collaborators (sentence-transformers `encode`, the OpenAI chat
  completion) are parameters of type `... → Except Unit ...`; a `.error`
  result models a raised exception.  Functions that the Python code can call
  externally also report how many external calls they performed, so that
  "never invokes the summarizer" is expressible.
-/

/-- Python `\s` whitespace class restricted to the ASCII whitespace that the
repository's data can contain (space, tab, newline, carriage return). -/
def isSpaceChar (c : Char) : Bool :=
  c == ' ' || c == '\t' || c == '\n' || c == '\r'

/-- `s.lower()` on the character list of a string. -/
def lowerList (s : String) : List Char :=
  s.toList.map Char.toLower

/-- Drop characters satisfying `p` from both ends (Python `str.strip(...)`). -/
def stripChars (p : Char → Bool) (l : List Char) : List Char :=
  ((l.dropWhile p).reverse.dropWhile p).reverse

/-- Python `str.strip()`. -/
def trimList (l : List Char) : List Char :=
  stripChars isSpaceChar l

/-- Python `needle in hay` substring test. -/
def listContains (hay needle : List Char) : Bool :=
  hay.tails.any (fun t => needle.isPrefixOf t)

/-- Python `str.split()` (split on whitespace runs, no empty words):
accumulator-based worker, `cur` holds the current word reversed. -/
def wordsOfAux : List Char → List Char → List (List Char)
  | [], cur => if cur = [] then [] else [cur.reverse]
  | c :: cs, cur =>
    if isSpaceChar c then
      if cur = [] then wordsOfAux cs [] else cur.reverse :: wordsOfAux cs []
    else wordsOfAux cs (c :: cur)

/-- Python `str.split()`. -/
def wordsOf (l : List Char) : List (List Char) :=
  wordsOfAux l []

/-- Stable insertion used by `sortDesc`: an element is placed before the
first element with a strictly smaller key, so equal keys keep input order. -/
def insertDesc {α : Type} (key : α → ℚ) (r : α) : List α → List α
  | [] => [r]
  | x :: xs => if key x < key r then r :: x :: xs else x :: insertDesc key r xs

/-- Stable sort by `key` descending, modelling Python
`list.sort(key=..., reverse=True)` and SQL `ORDER BY ... DESC`. -/
def sortDesc {α : Type} (key : α → ℚ) (l : List α) : List α :=
  l.foldr (insertDesc key) []

-- ---------------------------------------------------------------------------
-- Data model (`src/models.py`)
-- ---------------------------------------------------------------------------

/-- `models.Client`: id, email, first/last name, optional description. -/
structure Client where
  id : String
  email : String
  first_name : String
  last_name : String
  description : Option String
deriving DecidableEq

/-- `models.Document`: id, title, content, optional cached summary. -/
structure Document where
  id : String
  title : String
  content : String
  summary : Option String
deriving DecidableEq

/-- One `(client, score, match_field)` tuple of `search_clients`. -/
structure ClientResult where
  client : Client
  score : ℚ
  matchField : String
deriving DecidableEq

/-- One `(document, score, match_field)` tuple of the document searches. -/
structure DocResult where
  doc : Document
  score : ℚ
  matchField : String
deriving DecidableEq

-- ---------------------------------------------------------------------------
-- `src/search_config.py`
-- ---------------------------------------------------------------------------

namespace SearchScore

def EXACT_EMAIL : ℚ := 1000

def EXACT_NAME : ℚ := 950

def EXACT_FULL_NAME : ℚ := 950

def STARTS_WITH_EMAIL : ℚ := 900

def STARTS_WITH_NAME : ℚ := 850

def CONTAINS_EMAIL : ℚ := 700

def CONTAINS_NAME : ℚ := 650

def CONTAINS_DESCRIPTION : ℚ := 500

end SearchScore

/-- `HybridSearchWeights` dataclass with its defaults 0.4 / 0.6. -/
structure HybridSearchWeights where
  KEYWORD_WEIGHT : ℚ := 2/5
  SEMANTIC_WEIGHT : ℚ := 3/5
deriving DecidableEq

/-- Default of the `SEMANTIC_SIMILARITY_THRESHOLD` environment knob (0.15). -/
def SEMANTIC_SIMILARITY_THRESHOLD : ℚ := 3/20

def SEARCH_DEFAULT_LIMIT : Nat := 10

def SEARCH_MAX_LIMIT : Int := 100

def SEARCH_MIN_LIMIT : Int := 1

def SCORE_NORMALIZATION_FACTOR : ℚ := 1000

-- ---------------------------------------------------------------------------
-- `search_clients` (`src/search.py`, lines 17-95)
-- ---------------------------------------------------------------------------

/-- SQL `lower(description) LIKE '%q%'` with NULL semantics: a NULL
description never matches. -/
def descContains (c : Client) (q : List Char) : Bool :=
  match c.description with
  | some d => listContains (lowerList d) q
  | none => false

/-- The SQL `CASE` relevance score of `search_clients`, evaluated on one
client row against the lowered+stripped query `q`.  Branch order follows the
source exactly (the full name is `lower(concat(first_name, ' ',
last_name))`, and lowering distributes over concatenation). -/
def clientRelevance (c : Client) (q : List Char) : ℚ :=
  if lowerList c.email = q then SearchScore.EXACT_EMAIL
  else if lowerList c.first_name = q then SearchScore.EXACT_NAME
  else if lowerList c.last_name = q then SearchScore.EXACT_NAME
  else if lowerList c.first_name ++ [' '] ++ lowerList c.last_name = q then
    SearchScore.EXACT_FULL_NAME
  else if q.isPrefixOf (lowerList c.email) then SearchScore.STARTS_WITH_EMAIL
  else if q.isPrefixOf (lowerList c.first_name) then
    SearchScore.STARTS_WITH_NAME
  else if q.isPrefixOf (lowerList c.last_name) then
    SearchScore.STARTS_WITH_NAME
  else if listContains (lowerList c.email) q then SearchScore.CONTAINS_EMAIL
  else if listContains (lowerList c.first_name) q then
    SearchScore.CONTAINS_NAME
  else if listContains (lowerList c.last_name) q then
    SearchScore.CONTAINS_NAME
  else if descContains c q then SearchScore.CONTAINS_DESCRIPTION
  else 0

/-- SQL `WHERE` filter of `search_clients`: the query is a substring of
email, first name, last name or description (NULL description never matches). -/
def clientFilter (q : List Char) (c : Client) : Bool :=
  listContains (lowerList c.email) q ||
  listContains (lowerList c.first_name) q ||
  listContains (lowerList c.last_name) q ||
  descContains c q

/-- The Python result-formatting loop's match-field choice (lines 83-88):
containment in email wins, then first/last name, else description —
independently of which CASE branch produced the score. -/
def matchFieldClient (c : Client) (q : List Char) : String :=
  if listContains (lowerList c.email) q then "email"
  else if listContains (lowerList c.first_name) q ||
          listContains (lowerList c.last_name) q then "name"
  else "description"

/-- `search.search_clients`: filter rows, order by relevance descending,
limit, then format each row with a normalized score and a match field. -/
def search_clients (clients : List Client) (query : String) (limit : Nat) :
    List ClientResult :=
  if trimList query.toList = [] then []
  else
    let q := trimList (lowerList query)
    let rows := (sortDesc (fun c => clientRelevance c q)
        (clients.filter (clientFilter q))).take limit
    rows.map (fun c =>
      ⟨c, clientRelevance c q / SCORE_NORMALIZATION_FACTOR, matchFieldClient c q⟩)

-- ---------------------------------------------------------------------------
-- `search_documents_keyword` (`src/search.py`, lines 98-190)
-- ---------------------------------------------------------------------------

/-- SQL `CASE` relevance of the document keyword search (phrase tier). -/
def docRelevance (d : Document) (q : List Char) : ℚ :=
  let title := lowerList d.title
  let content := lowerList d.content
  if title = q then SearchScore.EXACT_EMAIL
  else if q.isPrefixOf title then SearchScore.STARTS_WITH_EMAIL
  else if listContains title q then SearchScore.CONTAINS_EMAIL
  else if listContains content q then SearchScore.CONTAINS_DESCRIPTION
  else 0

/-- SQL `WHERE` filter of the document keyword search: ANY query word occurs
in title or content. -/
def docFilter (qws : List (List Char)) (d : Document) : Bool :=
  qws.any (fun w =>
    listContains (lowerList d.title) w || listContains (lowerList d.content) w)

/-- Python local `words_in_title`: how many query words occur in the lowered
title. -/
def wordsInTitle (qws : List (List Char)) (d : Document) : Nat :=
  qws.countP (fun w => listContains (lowerList d.title) w)

/-- Python local `words_in_content`. -/
def wordsInContent (qws : List (List Char)) (d : Document) : Nat :=
  qws.countP (fun w => listContains (lowerList d.content) w)

/-- Python local `word_match_ratio`: `matched_words / total_words` guarded by
`total_words > 0`. -/
def wordMatchRatio (qws : List (List Char)) (d : Document) : ℚ :=
  if 0 < qws.length then
    ((max (wordsInTitle qws d) (wordsInContent qws d) : Nat) : ℚ)
      / (qws.length : ℚ)
  else 0

/-- The Python per-row formatting of `search_documents_keyword` (lines
147-186): phrase-tier score when positive, else the word-match fallback
score; rows with no word match are skipped. -/
def formatDocRow (q : List Char) (qws : List (List Char)) (p : Document × ℚ) :
    Option DocResult :=
  if 0 < p.2 then
    some ⟨p.1, min (p.2 / SCORE_NORMALIZATION_FACTOR) 1,
      if listContains (lowerList p.1.title) q then "title" else "content"⟩
  else
    if 0 < wordsInTitle qws p.1 || 0 < wordsInContent qws p.1 then
      some ⟨p.1,
        min ((wordMatchRatio qws p.1 * SearchScore.CONTAINS_DESCRIPTION
                * (8/10)) / SCORE_NORMALIZATION_FACTOR) 1,
        if wordsInContent qws p.1 < wordsInTitle qws p.1 then "title"
        else "content"⟩
    else none

/-- `search.search_documents_keyword`. -/
def search_documents_keyword (docs : List Document) (query : String)
    (limit : Nat) : List DocResult :=
  if trimList query.toList = [] then []
  else
    let q := trimList (lowerList query)
    let qws := wordsOf q
    let rows := ((sortDesc (fun p => p.2)
        ((docs.filter (docFilter qws)).map (fun d => (d, docRelevance d q)))).take
          (limit * 3))
    let formatted := rows.filterMap (formatDocRow q qws)
    (sortDesc (fun r => r.score) formatted).take limit

-- ---------------------------------------------------------------------------
-- `search_documents_semantic` (`src/search.py`, lines 193-234)
-- ---------------------------------------------------------------------------

/-- `search.search_documents_semantic`.  `semRows` are the `(document,
similarity)` rows the database returns for the query embedding — documents
with a non-null embedding, ordered by cosine distance (closest first); the
SQL `LIMIT` and the Python strict-threshold filter are applied here. -/
def search_documents_semantic (semRows : List (Document × ℚ)) (query : String)
    (limit : Nat) (similarity_threshold : ℚ) : List DocResult :=
  if trimList query.toList = [] then []
  else
    ((semRows.take limit).filter (fun p => similarity_threshold < p.2)).map
      (fun p => ⟨p.1, p.2, "semantic"⟩)

-- ---------------------------------------------------------------------------
-- `search_documents_hybrid` (`src/search.py`, lines 237-294)
-- ---------------------------------------------------------------------------

/-- The dictionary key of the `combined` dict: the document id. -/
def docKey (r : DocResult) : String :=
  r.doc.id

/-- The entry stored for a keyword result (`score * weights.KEYWORD_WEIGHT`,
original match field). -/
def kwEntry (w : HybridSearchWeights) (r : DocResult) : DocResult :=
  ⟨r.doc, r.score * w.KEYWORD_WEIGHT, r.matchField⟩

/-- Python dict assignment `combined[doc.id] = entry`: overwrite in place if
the key is present (keeping its position), else append. -/
def dictInsertKw (acc : List DocResult) (e : DocResult) : List DocResult :=
  if acc.any (fun x => docKey x == docKey e) then
    acc.map (fun x => if docKey x == docKey e then e else x)
  else acc ++ [e]

/-- Merge step for one semantic result (lines 276-285): add the weighted
semantic score and switch the match field to `"hybrid"` when the id is
already present, else insert a fresh `"semantic"` entry. -/
def addSemantic (w : HybridSearchWeights) (acc : List DocResult)
    (r : DocResult) : List DocResult :=
  if acc.any (fun x => docKey x == docKey r) then
    acc.map (fun x =>
      if docKey x == docKey r then
        ⟨x.doc, x.score + r.score * w.SEMANTIC_WEIGHT, "hybrid"⟩
      else x)
  else acc ++ [⟨r.doc, r.score * w.SEMANTIC_WEIGHT, "semantic"⟩]

/-- The `combined` dict of `search_documents_hybrid` in insertion order:
keyword results first, then the semantic results merged in. -/
def combineResults (w : HybridSearchWeights) (kw sem : List DocResult) :
    List DocResult :=
  sem.foldl (addSemantic w)
    (kw.foldl (fun acc r => dictInsertKw acc (kwEntry w r)) [])

/-- `search.search_documents_hybrid` (weights default to 0.4/0.6 at the call
site; the semantic threshold is the configured module default). -/
def search_documents_hybrid (docs : List Document)
    (semRows : List (Document × ℚ)) (query : String) (limit : Nat)
    (w : HybridSearchWeights) : List DocResult :=
  let kw := search_documents_keyword docs query limit
  let sem := search_documents_semantic semRows query limit
    SEMANTIC_SIMILARITY_THRESHOLD
  (sortDesc (fun r => r.score) (combineResults w kw sem)).take limit

-- ---------------------------------------------------------------------------
-- `perform_search` (`src/search.py`, lines 297-326) and the `/search`
-- endpoint (`src/api.py`, lines 331-359)
-- ---------------------------------------------------------------------------

inductive SearchType
  | all
  | clients
  | documents
deriving DecidableEq

/-- `search.perform_search`: clients are always keyword-searched, documents
always hybrid-searched, each only when the scope selects them. -/
def perform_search (clientsDb : List Client) (docsDb : List Document)
    (semRows : List (Document × ℚ)) (query : String) (stype : SearchType)
    (limit : Nat) (w : HybridSearchWeights) :
    List ClientResult × List DocResult :=
  let clientsResults :=
    if stype = SearchType.all ∨ stype = SearchType.clients then
      search_clients clientsDb query limit
    else []
  let documentsResults :=
    if stype = SearchType.all ∨ stype = SearchType.documents then
      search_documents_hybrid docsDb semRows query limit w
    else []
  (clientsResults, documentsResults)

inductive SearchError
  | invalidQuery
  | invalidLimit
deriving DecidableEq

/-- The `/search` endpoint handler `api.search`: validate the query and the
limit (in this order), then dispatch to `perform_search`; the scoring work in
the `.ok` branch is reached only when both validations pass. -/
def search (clientsDb : List Client) (docsDb : List Document)
    (semRows : List (Document × ℚ)) (q : String) (stype : SearchType)
    (limit : Int) (w : HybridSearchWeights) :
    Except SearchError (List ClientResult × List DocResult) :=
  if trimList q.toList = [] then Except.error SearchError.invalidQuery
  else if limit < SEARCH_MIN_LIMIT ∨ SEARCH_MAX_LIMIT < limit then
    Except.error SearchError.invalidLimit
  else
    Except.ok (perform_search clientsDb docsDb semRows q stype limit.toNat w)

-- ---------------------------------------------------------------------------
-- `src/embeddings.py`
-- ---------------------------------------------------------------------------

def EMBEDDING_DIMENSIONS : Nat := 384

/-- `embeddings.generate_embedding`.  `encode` is the external
sentence-transformers model applied to one (stripped) text; `.error` models
a raised exception.  The function itself is total: it never raises. -/
def generate_embedding (encode : String → Except Unit (List ℚ))
    (text : String) : List ℚ :=
  if (⟨trimList text.toList⟩ : String) = "" then
    List.replicate EMBEDDING_DIMENSIONS 0
  else
    match encode ⟨trimList text.toList⟩ with
    | Except.ok v => v
    | Except.error _ => List.replicate EMBEDDING_DIMENSIONS 0

/-- The cleaning step of `generate_embeddings_batch` (line 75): keep only
texts that are non-empty after stripping, stripped. -/
def cleanedTexts (texts : List String) : List String :=
  (texts.filter (fun t => trimList t.toList ≠ [])).map
    (fun t => (⟨trimList t.toList⟩ : String))

/-- `embeddings.generate_embeddings_batch`.  `encode` is the external model
applied to a batch; on failure the function returns one zero vector per
surviving (cleaned) text.  Inputs that are empty after stripping are dropped
from the batch, so the output can be shorter than the input. -/
def generate_embeddings_batch
    (encode : List String → Except Unit (List (List ℚ)))
    (texts : List String) : List (List ℚ) :=
  if texts = [] then []
  else if cleanedTexts texts = [] then []
  else
    match encode (cleanedTexts texts) with
    | Except.ok vs => vs
    | Except.error _ =>
      List.replicate (cleanedTexts texts).length
        (List.replicate EMBEDDING_DIMENSIONS 0)

-- ---------------------------------------------------------------------------
-- `src/summarizer.py`
-- ---------------------------------------------------------------------------

/-- End-of-sentence punctuation of the fallback splitter. -/
def isEosPunct (c : Char) : Bool :=
  c == '.' || c == '!' || c == '?'

/-- Head of the reversed current piece is end-of-sentence punctuation
(the regex lookbehind `(?<=[.!?])`). -/
def headIsPunct : List Char → Bool
  | [] => false
  | p :: _ => isEosPunct p

/-- Worker for `re.split` with pattern `(?<=[.!?])\s+`: `cur` is the current
piece reversed, the boolean flag is true while consuming a delimiter
whitespace run (which is only entered right after punctuation). -/
def sentSplitAux : List Char → List Char → Bool → List (List Char)
  | [], cur, _ => [cur.reverse]
  | c :: cs, cur, true =>
    if isSpaceChar c then sentSplitAux cs cur true
    else sentSplitAux cs [c] false
  | c :: cs, cur, false =>
    if isSpaceChar c && headIsPunct cur then
      cur.reverse :: sentSplitAux cs [] true
    else sentSplitAux cs (c :: cur) false

/-- `re.split(r'(?<=[.!?])\s+', content)` on a character list. -/
def sentSplit (l : List Char) : List (List Char) :=
  sentSplitAux l [] false

/-- Python `s[:n].rsplit(' ', 1)[0]` for `s` restricted to the part before
the last space character (the whole string when it contains no space). -/
def rsplitSpaceHead (l : List Char) : List Char :=
  if ' ' ∈ l then
    ((l.reverse.dropWhile (fun c => !(c == ' '))).drop 1).reverse
  else l

/-- The stripped, non-empty sentence list of `fallback_summary`
(lines 194-195). -/
def sentencesOf (cl : List Char) : List (List Char) :=
  ((sentSplit cl).map trimList).filter (fun s => s ≠ [])

/-- Python `s[:max_length].rsplit(' ', 1)[0] + "..."`, the truncation used
both for sentence-free content and for an over-long first sentence. -/
def fallbackTrunc (s : List Char) (max_length : Nat) : List Char :=
  rsplitSpaceHead (s.take max_length) ++ "...".toList

/-- The greedy accumulation loop over `sentences[:2]` (lines 202-212):
an over-long first sentence is truncated; a second sentence is appended
(space-joined) only while the test string stays within `max_length`. -/
def greedyTwo (s1 : List Char) (rest : List (List Char)) (max_length : Nat) :
    List Char :=
  if max_length < s1.length then fallbackTrunc s1 max_length
  else
    match rest with
    | [] => s1
    | s2 :: _ =>
      if max_length < (s1 ++ [' '] ++ s2).length then s1 else s1 ++ [' '] ++ s2

/-- Lines 214-215: append an ellipsis when the non-empty summary does not
end in terminal punctuation. -/
def addEllipsisIfNeeded (l : List Char) : List Char :=
  if l ≠ [] && !headIsPunct l.reverse then l ++ "...".toList else l

/-- `summarizer.fallback_summary`: split into sentences, greedily accumulate
the first two within `max_length`, truncate an over-long first sentence at
its last space within the limit, append an ellipsis when the result lacks
terminal punctuation, and strip the final result.  Content with no
(stripped) sentences is truncated directly. -/
def fallback_summary (content : String) (max_length : Nat) : String :=
  match sentencesOf content.toList with
  | [] => ⟨fallbackTrunc content.toList max_length⟩
  | s1 :: rest => ⟨trimList (addEllipsisIfNeeded (greedyTwo s1 rest max_length))⟩

/-- Quote characters stripped from an LLM summary (`strip('"\'')`). -/
def quoteChar (c : Char) : Bool :=
  c == '"' || c == Char.ofNat 39

/-- `summarizer.generate_summary`.  `llm` is the external OpenAI completion
call (content, max_length ↦ summary text); `.error` models any raised
exception.  Returns the summary together with the number of external LLM
invocations performed (0 or 1). -/
def generate_summary (llm : String → Nat → Except Unit String)
    (content : String) (max_length : Nat) : String × Nat :=
  if trimList content.toList = [] then ("", 0)
  else if (trimList content.toList).length ≤ max_length then
    (⟨trimList content.toList⟩, 0)
  else
    match llm ⟨trimList content.toList⟩ max_length with
    | Except.ok s => (⟨stripChars quoteChar (trimList s.toList)⟩, 1)
    | Except.error _ => (fallback_summary ⟨trimList content.toList⟩ max_length, 1)

-- ---------------------------------------------------------------------------
-- `crud.get_or_generate_summary` (`src/crud.py`, lines 381-414)
-- ---------------------------------------------------------------------------

/-- Python truthiness of `document.summary`: a present, non-empty string. -/
def summaryTruthy : Option String → Bool
  | none => false
  | some s => s ≠ ""

/-- `crud.get_or_generate_summary`: serve a truthy cached summary unless
`regenerate` is set; otherwise generate, persist onto the document and
return.  Result: (summary, resulting document row, LLM invocation count). -/
def get_or_generate_summary (llm : String → Nat → Except Unit String)
    (doc : Document) (max_length : Nat) (regenerate : Bool) :
    String × Document × Nat :=
  if summaryTruthy doc.summary && !regenerate then
    (doc.summary.getD "", doc, 0)
  else
    ((generate_summary llm doc.content max_length).1,
     { doc with summary := some (generate_summary llm doc.content max_length).1 },
     (generate_summary llm doc.content max_length).2)

-- ---------------------------------------------------------------------------
-- Concrete data used by witnesses and counterexamples
-- ---------------------------------------------------------------------------

/-- A client whose first name matches a query exactly while the same query is
also a substring of the email. -/
def cAnn : Client := ⟨"c1", "ann@x.com", "Ann", "B", none⟩

def dEx : Document := ⟨"d1", "Tax Return 2023", "body", none⟩

def dEx2 : Document := ⟨"d2", "Bank Statement", "body", none⟩

def kwEx : List DocResult := [⟨dEx, 1/2, "title"⟩]

def semEx : List DocResult := [⟨dEx, 3/4, "semantic"⟩]

/-- An external summarizer that always fails. -/
def llmFail : String → Nat → Except Unit String := fun _ _ => Except.error ()

/-- A document whose content has surrounding whitespace. -/
def docWs : Document := ⟨"doc-1", "T", " hi", none⟩

/-- A document with a cached summary. -/
def docCached : Document := ⟨"doc-2", "T", "body", some "cached summary"⟩

/-- A document whose cached summary is the empty string. -/
def docEmptySummary : Document := ⟨"doc-3", "T", "body text", some ""⟩

/-- An embedding model call that succeeds with an empty batch result. -/
def encodeOkEmpty : List String → Except Unit (List (List ℚ)) :=
  fun _ => Except.ok []

/-- A single-text embedding model call that always fails. -/
def encodeFail : String → Except Unit (List ℚ) := fun _ => Except.error ()

-- ---------------------------------------------------------------------------
-- Generic list lemmas
-- ---------------------------------------------------------------------------

theorem mem_insertDesc {α : Type} (key : α → ℚ) (r a : α) (l : List α) :
    a ∈ insertDesc key r l ↔ a = r ∨ a ∈ l := by
  induction l with
  | nil => simp [insertDesc]
  | cons x xs ih =>
    simp only [insertDesc]
    split
    · simp
    · simp [ih]
      tauto

theorem mem_sortDesc {α : Type} (key : α → ℚ) (a : α) (l : List α) :
    a ∈ sortDesc key l ↔ a ∈ l := by
  induction l with
  | nil => simp [sortDesc]
  | cons x xs ih =>
    simp only [sortDesc, List.foldr_cons] at ih ⊢
    rw [mem_insertDesc, ih, List.mem_cons]

theorem find?_append_some {α : Type} {p : α → Bool} {l₁ : List α} {e : α}
    (l₂ : List α) (h : l₁.find? p = some e) : (l₁ ++ l₂).find? p = some e := by
  induction l₁ with
  | nil => simp [List.find?] at h
  | cons a t ih =>
    simp only [List.cons_append, List.find?] at h ⊢
    cases hp : p a with
    | true => simpa [hp] using h
    | false =>
      rw [hp] at h
      simpa [hp] using ih h

theorem find?_append_none {α : Type} {p : α → Bool} {l₁ : List α}
    (l₂ : List α) (h : l₁.find? p = none) :
    (l₁ ++ l₂).find? p = l₂.find? p := by
  induction l₁ with
  | nil => simp
  | cons a t ih =>
    simp only [List.cons_append, List.find?] at h ⊢
    cases hp : p a with
    | true => simp [hp] at h
    | false =>
      rw [hp] at h
      simpa [hp] using ih h

theorem any_eq_isSome_find? {α : Type} (p : α → Bool) (l : List α) :
    l.any p = (l.find? p).isSome := by
  induction l with
  | nil => simp
  | cons a t ih =>
    simp only [List.any_cons, List.find?]
    cases hp : p a <;> simp [hp, ih]

-- ---------------------------------------------------------------------------
-- C2: semantic search strict similarity threshold
-- ---------------------------------------------------------------------------

/-- C2: for every similarity threshold and every candidate set (including the
empty one), `search_documents_semantic` returns no result whose similarity is
≤ the threshold — only candidates with similarity strictly greater than
`similarity_threshold` are retained. -/
theorem C2_semantic_strict_threshold (semRows : List (Document × ℚ))
    (query : String) (limit : Nat) (thr : ℚ) (r : DocResult)
    (hr : r ∈ search_documents_semantic semRows query limit thr) :
    thr < r.score := by
  unfold search_documents_semantic at hr
  split at hr
  · simp at hr
  · obtain ⟨p, hp, rfl⟩ := List.mem_map.mp hr
    exact of_decide_eq_true (List.mem_filter.mp hp).2

/-- Witness for C2 on a concrete candidate set: the retained row's
similarity 1 is strictly above the threshold 0 (a row at exactly the
threshold is dropped, so only this row survives). -/
theorem C2_semantic_strict_threshold_witness :
    (0 : ℚ) < (DocResult.mk dEx 1 "semantic").score :=
  C2_semantic_strict_threshold [(dEx, 1), (dEx2, 0)] "q" 10 0
    ⟨dEx, 1, "semantic"⟩ (List.mem_singleton_self _)

-- ---------------------------------------------------------------------------
-- C5: cached summaries are served without side effects
-- ---------------------------------------------------------------------------

/-- C5: for every document with a truthy (non-empty) cached summary and every
`max_length`, `get_or_generate_summary` with `regenerate = false` returns the
cached summary unchanged, performs zero summarizer invocations, and leaves
the stored document row unmodified. -/
theorem C5_cached_summary_served (llm : String → Nat → Except Unit String)
    (doc : Document) (max_length : Nat) (s : String)
    (hs : doc.summary = some s) (hne : s ≠ "") :
    get_or_generate_summary llm doc max_length false = (s, doc, 0) := by
  unfold get_or_generate_summary
  rw [hs]
  simp [summaryTruthy, hne]

/-- Witness for C5 at a concrete cached document. -/
theorem C5_cached_summary_served_witness :
    get_or_generate_summary llmFail docCached 100 false
      = ("cached summary", docCached, 0) :=
  C5_cached_summary_served llmFail docCached 100 "cached summary" rfl
    (by decide)

-- ---------------------------------------------------------------------------
-- C10: an empty-string cached summary is never served
-- ---------------------------------------------------------------------------

/-- C10: a cached summary that is the empty string is not treated as cached:
`get_or_generate_summary` with `regenerate = false` behaves exactly as if the
summary were absent — generation runs and its result overwrites the cache. -/
theorem C10_empty_summary_not_cached (llm : String → Nat → Except Unit String)
    (doc : Document) (max_length : Nat) (hs : doc.summary = some "") :
    get_or_generate_summary llm doc max_length false
      = ((generate_summary llm doc.content max_length).1,
         { doc with
            summary := some (generate_summary llm doc.content max_length).1 },
         (generate_summary llm doc.content max_length).2)
    ∧ get_or_generate_summary llm doc max_length false
      = get_or_generate_summary llm { doc with summary := none } max_length
          false := by
  constructor
  · unfold get_or_generate_summary
    rw [hs]
    simp [summaryTruthy]
  · unfold get_or_generate_summary
    rw [hs]
    simp [summaryTruthy]

/-- Witness for C10: with an always-failing summarizer, a document cached
with `""` regenerates (here via the extractive fallback, which returns the
short content verbatim) and overwrites the cache. -/
theorem C10_empty_summary_not_cached_witness :
    get_or_generate_summary llmFail docEmptySummary 100 false
      = ((generate_summary llmFail docEmptySummary.content 100).1,
         { docEmptySummary with
            summary :=
              some (generate_summary llmFail docEmptySummary.content 100).1 },
         (generate_summary llmFail docEmptySummary.content 100).2) :=
  (C10_empty_summary_not_cached llmFail docEmptySummary 100 rfl).1

-- ---------------------------------------------------------------------------
-- C8: orchestrator validation
-- ---------------------------------------------------------------------------

/-- C8: the `/search` handler rejects a query that is empty after trimming
with `invalidQuery`, rejects a limit outside `[SEARCH_MIN_LIMIT,
SEARCH_MAX_LIMIT]` = [1,100] with `invalidLimit`, and in both error cases no
search result is computed (the `.ok` payload exists only in the valid case,
where the handler returns exactly `perform_search`'s output and no
validation error is raised). -/
theorem C8_validation (clientsDb : List Client) (docsDb : List Document)
    (semRows : List (Document × ℚ)) (q : String) (stype : SearchType)
    (limit : Int) (w : HybridSearchWeights) :
    (trimList q.toList = [] →
      search clientsDb docsDb semRows q stype limit w
        = Except.error SearchError.invalidQuery)
    ∧ (trimList q.toList ≠ [] →
        (limit < SEARCH_MIN_LIMIT ∨ SEARCH_MAX_LIMIT < limit) →
        search clientsDb docsDb semRows q stype limit w
          = Except.error SearchError.invalidLimit)
    ∧ (trimList q.toList ≠ [] → SEARCH_MIN_LIMIT ≤ limit →
        limit ≤ SEARCH_MAX_LIMIT →
        search clientsDb docsDb semRows q stype limit w
          = Except.ok
              (perform_search clientsDb docsDb semRows q stype limit.toNat
                w)) := by
  refine ⟨?_, ?_, ?_⟩
  · intro h
    unfold search
    rw [if_pos h]
  · intro h1 h2
    unfold search
    rw [if_neg h1, if_pos h2]
  · intro h1 h2 h3
    have h4 : ¬(limit < SEARCH_MIN_LIMIT ∨ SEARCH_MAX_LIMIT < limit) := by
      push_neg
      exact ⟨h2, h3⟩
    unfold search
    rw [if_neg h1, if_neg h4]

/-- Witness for C8 at a concrete valid request. -/
theorem C8_validation_witness :
    search [cAnn] [dEx] [] "ann" SearchType.all 10 {}
      = Except.ok
          (perform_search [cAnn] [dEx] [] "ann" SearchType.all
            (Int.toNat 10) {}) :=
  (C8_validation [cAnn] [dEx] [] "ann" SearchType.all 10 {}).2.2 (by decide)
    (by decide) (by decide)

-- ---------------------------------------------------------------------------
-- C4: normalized keyword scores lie in [0,1]
-- ---------------------------------------------------------------------------

set_option maxHeartbeats 1000000 in
theorem clientRelevance_nonneg (c : Client) (q : List Char) :
    0 ≤ clientRelevance c q := by
  unfold clientRelevance SearchScore.EXACT_EMAIL SearchScore.EXACT_NAME
    SearchScore.EXACT_FULL_NAME SearchScore.STARTS_WITH_EMAIL
    SearchScore.STARTS_WITH_NAME SearchScore.CONTAINS_EMAIL
    SearchScore.CONTAINS_NAME SearchScore.CONTAINS_DESCRIPTION
  split_ifs
  all_goals norm_num

set_option maxHeartbeats 1000000 in
theorem clientRelevance_le (c : Client) (q : List Char) :
    clientRelevance c q ≤ 1000 := by
  unfold clientRelevance SearchScore.EXACT_EMAIL SearchScore.EXACT_NAME
    SearchScore.EXACT_FULL_NAME SearchScore.STARTS_WITH_EMAIL
    SearchScore.STARTS_WITH_NAME SearchScore.CONTAINS_EMAIL
    SearchScore.CONTAINS_NAME SearchScore.CONTAINS_DESCRIPTION
  split_ifs
  all_goals norm_num

theorem wordMatchRatio_nonneg (qws : List (List Char)) (d : Document) :
    0 ≤ wordMatchRatio qws d := by
  unfold wordMatchRatio
  split
  · positivity
  · norm_num

/-- C4: both keyword scorers — the profile scorer `search_clients` and the
document scorer `search_documents_keyword` — only produce normalized scores
in [0,1]. -/
theorem C4_scores_normalized :
    (∀ (clients : List Client) (query : String) (limit : Nat)
        (r : ClientResult), r ∈ search_clients clients query limit →
        0 ≤ r.score ∧ r.score ≤ 1)
    ∧ (∀ (docs : List Document) (query : String) (limit : Nat)
        (r : DocResult), r ∈ search_documents_keyword docs query limit →
        0 ≤ r.score ∧ r.score ≤ 1) := by
  constructor
  · intro clients query limit r hr
    unfold search_clients at hr
    split at hr
    · simp at hr
    · obtain ⟨c, hc, rfl⟩ := List.mem_map.mp hr
      have hfac : (0 : ℚ) < SCORE_NORMALIZATION_FACTOR := by
        norm_num [SCORE_NORMALIZATION_FACTOR]
      constructor
      · exact div_nonneg (clientRelevance_nonneg c _) hfac.le
      · rw [div_le_one hfac]
        have := clientRelevance_le c (trimList (lowerList query))
        unfold SCORE_NORMALIZATION_FACTOR
        linarith
  · intro docs query limit r hr
    unfold search_documents_keyword at hr
    split at hr
    · simp at hr
    · have hr1 := List.take_subset _ _ hr
      rw [mem_sortDesc] at hr1
      obtain ⟨p, hp, hfmt⟩ := List.mem_filterMap.mp hr1
      unfold formatDocRow at hfmt
      have hfac : (0 : ℚ) < SCORE_NORMALIZATION_FACTOR := by
        norm_num [SCORE_NORMALIZATION_FACTOR]
      split at hfmt
      · rename_i hpos
        injection hfmt with hfmt'
        subst hfmt'
        constructor
        · exact le_min (div_nonneg hpos.le hfac.le) zero_le_one
        · exact min_le_right _ _
      · split at hfmt
        · injection hfmt with hfmt'
          subst hfmt'
          constructor
          · refine le_min ?_ zero_le_one
            refine div_nonneg ?_ hfac.le
            refine mul_nonneg (mul_nonneg (wordMatchRatio_nonneg _ _) ?_)
              (by norm_num)
            norm_num [SearchScore.CONTAINS_DESCRIPTION]
          · exact min_le_right _ _
        · exact absurd hfmt (by simp)

/-- Witness for C4 at a concrete client search result. -/
theorem C4_scores_normalized_witness :
    0 ≤ (ClientResult.mk cAnn
          (SearchScore.EXACT_NAME / SCORE_NORMALIZATION_FACTOR)
          "email").score
    ∧ (ClientResult.mk cAnn
        (SearchScore.EXACT_NAME / SCORE_NORMALIZATION_FACTOR)
        "email").score ≤ 1 :=
  C4_scores_normalized.1 [cAnn] "ann" 10 _ (List.mem_singleton_self _)

-- ---------------------------------------------------------------------------
-- C3: profile match_field is chosen by containment, not by the winning rule
-- ---------------------------------------------------------------------------

/-- C3 counterexample: for the query `"ann"` against a client whose first
name is exactly `"Ann"` and whose email merely contains `"ann"`, the winning
scoring rule is the exact-name CASE branch (950), yet the reported
`match_field` is `"email"`, not `"name"` as the claim requires. -/
theorem C3_match_field_cex :
    clientRelevance cAnn (trimList (lowerList "ann")) = SearchScore.EXACT_NAME
    ∧ search_clients [cAnn] "ann" 10
        = [⟨cAnn, SearchScore.EXACT_NAME / SCORE_NORMALIZATION_FACTOR,
            "email"⟩]
    ∧ SearchScore.EXACT_NAME / SCORE_NORMALIZATION_FACTOR = 19/20
    ∧ ("email" : String) ≠ "name" :=
  ⟨rfl, rfl,
    by norm_num [SearchScore.EXACT_NAME, SCORE_NORMALIZATION_FACTOR],
    by decide⟩

/-- C3 amended: every `search_clients` result's `match_field` is one of
`"email"`/`"name"`/`"description"`, chosen by substring containment of the
normalized query with priority email > first/last name > description —
independent of which CASE rule produced the score. -/
theorem C3_match_field_amended (clients : List Client) (query : String)
    (limit : Nat) (r : ClientResult)
    (hr : r ∈ search_clients clients query limit) :
    (r.matchField = "email" ∨ r.matchField = "name"
      ∨ r.matchField = "description")
    ∧ r.matchField = matchFieldClient r.client (trimList (lowerList query)) := by
  unfold search_clients at hr
  split at hr
  · simp at hr
  · obtain ⟨c, hc, rfl⟩ := List.mem_map.mp hr
    refine ⟨?_, rfl⟩
    unfold matchFieldClient
    split
    · exact Or.inl rfl
    · split
      · exact Or.inr (Or.inl rfl)
      · exact Or.inr (Or.inr rfl)

-- ---------------------------------------------------------------------------
-- C1: the hybrid merge
-- ---------------------------------------------------------------------------

theorem find?_map_keyInv (u : DocResult → DocResult)
    (hu : ∀ x, docKey (u x) = docKey x) (id : String) (l : List DocResult) :
    (l.map u).find? (fun x => docKey x == id)
      = (l.find? (fun x => docKey x == id)).map u := by
  induction l with
  | nil => rfl
  | cons a t ih =>
    simp only [List.map_cons, List.find?]
    rw [hu a]
    cases h : (docKey a == id) <;> simp [h, ih]

theorem find?_prop {α : Type} {p : α → Bool} {l : List α} {e : α}
    (h : l.find? p = some e) : p e = true := by
  induction l with
  | nil => simp [List.find?] at h
  | cons a t ih =>
    simp only [List.find?] at h
    cases hp : p a with
    | true =>
      rw [hp] at h
      simp only [Option.some.injEq] at h
      exact h ▸ hp
    | false =>
      rw [hp] at h
      exact ih h

theorem find?_key_prop {l : List DocResult} {id : String} {e : DocResult}
    (h : l.find? (fun x => docKey x == id) = some e) : docKey e = id := by
  have h2 := find?_prop h
  simp only [beq_iff_eq] at h2
  exact h2

theorem addSemantic_key_ne (w : HybridSearchWeights) (acc : List DocResult)
    (r : DocResult) (id : String) (h : (docKey r == id) = false) :
    (addSemantic w acc r).find? (fun x => docKey x == id)
      = acc.find? (fun x => docKey x == id) := by
  unfold addSemantic
  split
  · rw [find?_map_keyInv]
    · cases he : acc.find? (fun x => docKey x == id) with
      | none => rfl
      | some e =>
        have he' : docKey e = id := find?_key_prop he
        have hr' : docKey r ≠ id := beq_eq_false_iff_ne.mp h
        have hne : (docKey e == docKey r) = false :=
          beq_eq_false_iff_ne.mpr fun hc => hr' (hc.symm.trans he')
        show some (if (docKey e == docKey r) = true then
            (⟨e.doc, e.score + r.score * w.SEMANTIC_WEIGHT,
              "hybrid"⟩ : DocResult)
          else e) = some e
        rw [if_neg (by simp [hne])]
    · intro x
      split <;> rfl
  · cases he : acc.find? (fun x => docKey x == id) with
    | some e => exact find?_append_some _ he
    | none =>
      rw [find?_append_none _ he]
      have h' : (docKey (⟨r.doc, r.score * w.SEMANTIC_WEIGHT,
          "semantic"⟩ : DocResult) == id) = false := h
      simp [List.find?, h']

theorem addSemantic_find?_self_some (w : HybridSearchWeights)
    (acc : List DocResult) (r e : DocResult)
    (he : acc.find? (fun x => docKey x == docKey r) = some e) :
    (addSemantic w acc r).find? (fun x => docKey x == docKey r)
      = some ⟨e.doc, e.score + r.score * w.SEMANTIC_WEIGHT, "hybrid"⟩ := by
  unfold addSemantic
  have hany : acc.any (fun x => docKey x == docKey r) = true := by
    rw [any_eq_isSome_find?, he]
    rfl
  rw [if_pos hany, find?_map_keyInv, he]
  · have hpe : docKey e = docKey r := find?_key_prop he
    simp [hpe]
  · intro x
    split <;> rfl

theorem addSemantic_find?_self_none (w : HybridSearchWeights)
    (acc : List DocResult) (r : DocResult)
    (he : acc.find? (fun x => docKey x == docKey r) = none) :
    (addSemantic w acc r).find? (fun x => docKey x == docKey r)
      = some ⟨r.doc, r.score * w.SEMANTIC_WEIGHT, "semantic"⟩ := by
  unfold addSemantic
  have hany : acc.any (fun x => docKey x == docKey r) = false := by
    rw [any_eq_isSome_find?, he]
    rfl
  rw [if_neg (by simp [hany]), find?_append_none _ he]
  simp [List.find?, docKey]

theorem semFold_find?_untouched (w : HybridSearchWeights)
    (sem : List DocResult) (id : String) :
    ∀ acc : List DocResult, (∀ r ∈ sem, (docKey r == id) = false) →
    (sem.foldl (addSemantic w) acc).find? (fun x => docKey x == id)
      = acc.find? (fun x => docKey x == id) := by
  induction sem with
  | nil => intro acc _; rfl
  | cons r t ih =>
    intro acc h
    simp only [List.foldl_cons]
    rw [ih _ fun x hx => h x (List.mem_cons_of_mem r hx)]
    exact addSemantic_key_ne w acc r id (h r (List.mem_cons_self r t))

theorem semFold_find?_hybrid (w : HybridSearchWeights)
    (sem : List DocResult) (rs : DocResult) :
    (sem.map docKey).Nodup → rs ∈ sem →
    ∀ (acc : List DocResult) (e : DocResult),
    acc.find? (fun x => docKey x == docKey rs) = some e →
    (sem.foldl (addSemantic w) acc).find? (fun x => docKey x == docKey rs)
      = some ⟨e.doc, e.score + rs.score * w.SEMANTIC_WEIGHT, "hybrid"⟩ := by
  induction sem with
  | nil => intro _ hrs; simp at hrs
  | cons r t ih =>
    intro hnd hrs acc e he
    rw [List.map_cons, List.nodup_cons] at hnd
    simp only [List.foldl_cons]
    rcases List.mem_cons.mp hrs with heq | hrs'
    · rw [heq] at he ⊢
      have hforall : ∀ x ∈ t, (docKey x == docKey r) = false := by
        intro x hx
        refine beq_eq_false_iff_ne.mpr fun hc => ?_
        apply hnd.1
        rw [← hc]
        exact List.mem_map_of_mem docKey hx
      rw [semFold_find?_untouched w t (docKey r) (addSemantic w acc r)
        hforall]
      exact addSemantic_find?_self_some w acc r e he
    · have hne : (docKey r == docKey rs) = false := by
        refine beq_eq_false_iff_ne.mpr fun hc => ?_
        apply hnd.1
        rw [hc]
        exact List.mem_map_of_mem docKey hrs'
      refine ih hnd.2 hrs' _ e ?_
      rw [addSemantic_key_ne w acc r _ hne]
      exact he

theorem semFold_find?_semOnly (w : HybridSearchWeights)
    (sem : List DocResult) (rs : DocResult) :
    (sem.map docKey).Nodup → rs ∈ sem →
    ∀ acc : List DocResult,
    acc.find? (fun x => docKey x == docKey rs) = none →
    (sem.foldl (addSemantic w) acc).find? (fun x => docKey x == docKey rs)
      = some ⟨rs.doc, rs.score * w.SEMANTIC_WEIGHT, "semantic"⟩ := by
  induction sem with
  | nil => intro _ hrs; simp at hrs
  | cons r t ih =>
    intro hnd hrs acc he
    rw [List.map_cons, List.nodup_cons] at hnd
    simp only [List.foldl_cons]
    rcases List.mem_cons.mp hrs with heq | hrs'
    · rw [heq] at he ⊢
      have hforall : ∀ x ∈ t, (docKey x == docKey r) = false := by
        intro x hx
        refine beq_eq_false_iff_ne.mpr fun hc => ?_
        apply hnd.1
        rw [← hc]
        exact List.mem_map_of_mem docKey hx
      rw [semFold_find?_untouched w t (docKey r) (addSemantic w acc r)
        hforall]
      exact addSemantic_find?_self_none w acc r he
    · have hne : (docKey r == docKey rs) = false := by
        refine beq_eq_false_iff_ne.mpr fun hc => ?_
        apply hnd.1
        rw [hc]
        exact List.mem_map_of_mem docKey hrs'
      refine ih hnd.2 hrs' _ ?_
      rw [addSemantic_key_ne w acc r _ hne]
      exact he

theorem kwFold_eq_append (w : HybridSearchWeights) (kw : List DocResult) :
    ∀ acc : List DocResult, (acc.map docKey ++ kw.map docKey).Nodup →
    kw.foldl (fun a r => dictInsertKw a (kwEntry w r)) acc
      = acc ++ kw.map (kwEntry w) := by
  induction kw with
  | nil => intro acc _; simp
  | cons r t ih =>
    intro acc h
    simp only [List.foldl_cons]
    have hdis := (List.nodup_append.mp h).2.2
    have hnotin : docKey r ∉ acc.map docKey := fun hc =>
      hdis hc (by simp)
    have hins : dictInsertKw acc (kwEntry w r) = acc ++ [kwEntry w r] := by
      unfold dictInsertKw
      rw [if_neg]
      intro hc
      obtain ⟨x, hx, hbeq⟩ := List.any_eq_true.mp hc
      exact hnotin (beq_iff_eq.mp hbeq ▸ List.mem_map_of_mem docKey hx)
    rw [hins, ih]
    · simp
    · rw [List.map_append]
      simp only [List.map_cons] at h ⊢
      rw [List.append_assoc]
      simpa using h

theorem nodup_mem_find?_self (l : List DocResult) (r : DocResult) :
    (l.map docKey).Nodup → r ∈ l →
    l.find? (fun x => docKey x == docKey r) = some r := by
  induction l with
  | nil => intro _ hr; simp at hr
  | cons a t ih =>
    intro hnd hr
    rw [List.map_cons, List.nodup_cons] at hnd
    rcases List.mem_cons.mp hr with heq | hr'
    · rw [heq]
      simp [List.find?]
    · have hne : (docKey a == docKey r) = false := by
        refine beq_eq_false_iff_ne.mpr fun hc => ?_
        apply hnd.1
        rw [hc]
        exact List.mem_map_of_mem docKey hr'
      simp only [List.find?, hne]
      exact ih hnd.2 hr'

theorem notin_find?_none (l : List DocResult) (id : String)
    (h : ∀ x ∈ l, docKey x ≠ id) :
    l.find? (fun x => docKey x == id) = none := by
  induction l with
  | nil => rfl
  | cons a t ih =>
    have hne : (docKey a == id) = false :=
      beq_eq_false_iff_ne.mpr (h a (List.mem_cons_self a t))
    simp only [List.find?, hne]
    exact ih fun x hx => h x (List.mem_cons_of_mem a hx)

/-- C1: in the hybrid merge, a document id present in both result sets gets
merged score `keyword_score * KEYWORD_WEIGHT + semantic_score *
SEMANTIC_WEIGHT` and match field `"hybrid"`; an id present in only one set
keeps that single score times the corresponding weight (no renormalization),
with its original keyword match field resp. `"semantic"`.  The default
weights are 0.4/0.6, and every result of `search_documents_hybrid` is an
entry of this merged dictionary. -/
theorem C1_hybrid_merge (kw sem : List DocResult) (w : HybridSearchWeights)
    (rk rs : DocResult) (hndk : (kw.map docKey).Nodup)
    (hnds : (sem.map docKey).Nodup) :
    (rk ∈ kw → rs ∈ sem → docKey rs = docKey rk →
      (combineResults w kw sem).find? (fun x => docKey x == docKey rk)
        = some ⟨rk.doc,
            rk.score * w.KEYWORD_WEIGHT + rs.score * w.SEMANTIC_WEIGHT,
            "hybrid"⟩)
    ∧ (rk ∈ kw → docKey rk ∉ sem.map docKey →
      (combineResults w kw sem).find? (fun x => docKey x == docKey rk)
        = some ⟨rk.doc, rk.score * w.KEYWORD_WEIGHT, rk.matchField⟩)
    ∧ (rs ∈ sem → docKey rs ∉ kw.map docKey →
      (combineResults w kw sem).find? (fun x => docKey x == docKey rs)
        = some ⟨rs.doc, rs.score * w.SEMANTIC_WEIGHT, "semantic"⟩)
    ∧ ({} : HybridSearchWeights).KEYWORD_WEIGHT = 2/5
    ∧ ({} : HybridSearchWeights).SEMANTIC_WEIGHT = 3/5
    ∧ (∀ (docs : List Document) (semRows : List (Document × ℚ))
        (query : String) (limit : Nat) (r : DocResult),
        r ∈ search_documents_hybrid docs semRows query limit w →
        r ∈ combineResults w (search_documents_keyword docs query limit)
            (search_documents_semantic semRows query limit
              SEMANTIC_SIMILARITY_THRESHOLD)) := by
  have hacc : kw.foldl (fun a r => dictInsertKw a (kwEntry w r)) []
      = kw.map (kwEntry w) := by
    simpa using kwFold_eq_append w kw [] (by simpa using hndk)
  refine ⟨?_, ?_, ?_, rfl, rfl, ?_⟩
  · intro hk hs hid
    unfold combineResults
    rw [hacc, ← hid]
    refine semFold_find?_hybrid w sem rs hnds hs _ (kwEntry w rk) ?_
    rw [hid, find?_map_keyInv (kwEntry w) (fun x => rfl),
      nodup_mem_find?_self kw rk hndk hk]
    rfl
  · intro hk hnotin
    unfold combineResults
    rw [hacc, semFold_find?_untouched w sem (docKey rk) _ ?_]
    · rw [find?_map_keyInv (kwEntry w) (fun x => rfl),
        nodup_mem_find?_self kw rk hndk hk]
      rfl
    · intro x hx
      refine beq_eq_false_iff_ne.mpr fun hc => ?_
      exact hnotin (hc ▸ List.mem_map_of_mem docKey hx)
  · intro hs hnotin
    unfold combineResults
    rw [hacc]
    refine semFold_find?_semOnly w sem rs hnds hs _ ?_
    refine notin_find?_none _ _ ?_
    intro x hx hc
    obtain ⟨y, hy, rfl⟩ := List.mem_map.mp hx
    have hym : docKey y ∈ kw.map docKey := List.mem_map_of_mem docKey hy
    rw [show docKey y = docKey rs from hc] at hym
    exact hnotin hym
  · intro docs semRows query limit r hr
    unfold search_documents_hybrid at hr
    have h1 := List.take_subset _ _ hr
    rw [mem_sortDesc] at h1
    exact h1

/-- Witness for C1: a document in both result sets (keyword score 1/2,
semantic similarity 3/4, default weights) merges to 1/2·0.4 + 3/4·0.6 =
13/20 with match field "hybrid". -/
theorem C1_hybrid_merge_witness :
    ((combineResults {} kwEx semEx).find? (fun x => docKey x == "d1")
      = some ⟨dEx, (1:ℚ)/2 * (2/5) + (3:ℚ)/4 * (3/5), "hybrid"⟩)
    ∧ (1:ℚ)/2 * (2/5) + (3:ℚ)/4 * (3/5) = 13/20 :=
  ⟨(C1_hybrid_merge kwEx semEx {} ⟨dEx, 1/2, "title"⟩ ⟨dEx, 3/4, "semantic"⟩
      (by decide) (by decide)).1 (List.mem_singleton_self _)
      (List.mem_singleton_self _) rfl,
    by norm_num⟩

-- ---------------------------------------------------------------------------
-- C7: the extractive fallback summary
-- ---------------------------------------------------------------------------

theorem dropWhile_eq_nil_iff_all {p : Char → Bool} {l : List Char} :
    l.dropWhile p = [] ↔ ∀ c ∈ l, p c = true := by
  induction l with
  | nil => simp
  | cons a t ih =>
    rw [List.dropWhile_cons]
    by_cases hpa : p a = true
    · simp [hpa, ih]
    · simp [hpa]

theorem trimList_eq_nil_iff_all {l : List Char} :
    trimList l = [] ↔ ∀ c ∈ l, isSpaceChar c = true := by
  unfold trimList stripChars
  constructor
  · intro h c hcl
    rw [List.reverse_eq_nil_iff] at h
    have h2 := dropWhile_eq_nil_iff_all.mp h
    rw [← List.takeWhile_append_dropWhile (p := isSpaceChar) (l := l)] at hcl
    rcases List.mem_append.mp hcl with h3 | h3
    · exact List.mem_takeWhile_imp h3
    · exact h2 c (List.mem_reverse.mpr h3)
  · intro h
    rw [dropWhile_eq_nil_iff_all.mpr h]
    rfl

theorem sentSplitAux_subset (l : List Char) : ∀ (cur : List Char) (d : Bool)
    (piece : List Char), piece ∈ sentSplitAux l cur d →
    ∀ c ∈ piece, c ∈ l ∨ c ∈ cur := by
  induction l with
  | nil =>
    intro cur d piece hp c hc
    simp only [sentSplitAux, List.mem_singleton] at hp
    subst hp
    exact Or.inr (List.mem_reverse.mp hc)
  | cons a t ih =>
    intro cur d piece hp c hc
    cases d with
    | true =>
      simp only [sentSplitAux] at hp
      by_cases ha : isSpaceChar a = true
      · rw [if_pos ha] at hp
        rcases ih cur true piece hp c hc with h | h
        · exact Or.inl (List.mem_cons_of_mem a h)
        · exact Or.inr h
      · rw [if_neg ha] at hp
        rcases ih [a] false piece hp c hc with h | h
        · exact Or.inl (List.mem_cons_of_mem a h)
        · rw [List.mem_singleton.mp h]
          exact Or.inl (List.mem_cons_self a t)
    | false =>
      simp only [sentSplitAux] at hp
      by_cases ha : (isSpaceChar a && headIsPunct cur) = true
      · rw [if_pos ha] at hp
        rcases List.mem_cons.mp hp with h | h
        · subst h
          exact Or.inr (List.mem_reverse.mp hc)
        · rcases ih [] true piece h c hc with h2 | h2
          · exact Or.inl (List.mem_cons_of_mem a h2)
          · simp at h2
      · rw [if_neg ha] at hp
        rcases ih (a :: cur) false piece hp c hc with h | h
        · exact Or.inl (List.mem_cons_of_mem a h)
        · rcases List.mem_cons.mp h with h2 | h2
          · subst h2
            exact Or.inl (List.mem_cons_self _ _)
          · exact Or.inr h2

theorem sentSplit_subset {cl piece : List Char} (hp : piece ∈ sentSplit cl) :
    ∀ c ∈ piece, c ∈ cl := by
  intro c hc
  rcases sentSplitAux_subset cl [] false piece hp c hc with h | h
  · exact h
  · simp at h

theorem rsplitSpaceHead_subset (l : List Char) :
    ∀ c ∈ rsplitSpaceHead l, c ∈ l := by
  intro c hc
  unfold rsplitSpaceHead at hc
  split at hc
  · rw [List.mem_reverse] at hc
    have h1 : c ∈ l.reverse.dropWhile (fun c => !(c == ' ')) :=
      List.drop_subset _ _ hc
    have h2 : c ∈ l.reverse := by
      rw [← List.takeWhile_append_dropWhile
        (p := fun c => !(c == ' ')) (l := l.reverse)]
      exact List.mem_append_right _ h1
    exact List.mem_reverse.mp h2
  · exact hc

/-- C7 counterexample: content `"  "` (two spaces) is empty after trimming,
yet the fallback summary is `" ..."` (a space survives in front of the
ellipsis marker), not just the ellipsis marker `"..."` — Python's
`content[:50].rsplit(' ', 1)[0]` on `"  "` is `" "`. -/
theorem C7_fallback_cex :
    fallback_summary "  " 50 = " ..." ∧ (" ..." : String) ≠ "..." :=
  ⟨rfl, by decide⟩

/-- C7 amended: the extractive fallback splits on end-of-sentence
punctuation followed by whitespace and greedily accumulates up to the first
two sentences within `max_length` (scenario (1) and the greedy stop (6));
it truncates an over-long first sentence at the last space within the limit
plus an ellipsis (4); it appends an ellipsis when the result lacks terminal
punctuation (5); for EMPTY content it yields just the ellipsis marker for
every `max_length` (2); but for content that is merely empty after trimming
the result is the ellipsis marker preceded by a (possibly non-empty) run of
whitespace left over from the truncation (3). -/
theorem C7_fallback_amended :
    fallback_summary "First sentence. Second sentence. Third sentence." 100
      = "First sentence. Second sentence."
    ∧ (∀ max_length : Nat, fallback_summary "" max_length = "...")
    ∧ (∀ (content : String) (max_length : Nat),
        trimList content.toList = [] →
        ∃ ws : List Char,
          (fallback_summary content max_length).data = ws ++ "...".toList
          ∧ ∀ c ∈ ws, isSpaceChar c = true)
    ∧ fallback_summary "aaaa bbbb cccc" 8 = "aaaa..."
    ∧ fallback_summary "hello world" 100 = "hello world..."
    ∧ fallback_summary "One two. Three four. Five six." 15 = "One two." := by
  refine ⟨rfl, ?_, ?_, rfl, rfl, rfl⟩
  · intro max_length
    show (⟨fallbackTrunc ("" : String).toList max_length⟩ : String) = "..."
    unfold fallbackTrunc
    rw [show ("" : String).toList = [] from rfl, List.take_nil]
    rfl
  · intro content max_length h
    have hall : ∀ c ∈ content.toList, isSpaceChar c = true :=
      trimList_eq_nil_iff_all.mp h
    have hsent : sentencesOf content.toList = [] := by
      unfold sentencesOf
      rw [List.filter_eq_nil_iff]
      intro s hs
      obtain ⟨piece, hpiece, rfl⟩ := List.mem_map.mp hs
      have : trimList piece = [] := by
        rw [trimList_eq_nil_iff_all]
        intro c hc
        exact hall c (sentSplit_subset hpiece c hc)
      simp [this]
    have hred : fallback_summary content max_length
        = ⟨fallbackTrunc content.toList max_length⟩ := by
      unfold fallback_summary
      rw [hsent]
    rw [hred]
    refine ⟨rsplitSpaceHead (content.toList.take max_length), rfl, ?_⟩
    intro c hc
    exact hall c
      (List.take_subset max_length _ (rsplitSpaceHead_subset _ c hc))

/-- Witness for the amended C7: the empty-content clause at a concrete
`max_length`. -/
theorem C7_fallback_amended_witness : fallback_summary "" 7 = "..." :=
  C7_fallback_amended.2.1 7

-- ---------------------------------------------------------------------------
-- C9: embedding generator error behavior
-- ---------------------------------------------------------------------------

/-- C9 counterexample: the batch form does NOT return a well-formed vector
per input — an input that is empty after stripping is dropped from the
batch, so a one-element input list yields a zero-element output (the unit
test `test_generate_embeddings_batch_with_empty_strings` asserts exactly
this filtering). -/
theorem C9_embedding_batch_cex :
    generate_embeddings_batch encodeOkEmpty [""] = []
    ∧ ([""] : List String).length = 1
    ∧ (generate_embeddings_batch encodeOkEmpty [""]).length
        ≠ ([""] : List String).length :=
  ⟨rfl, rfl, by decide⟩

/-- C9 amended: the single-text embedding never raises — it returns the
all-zero 384-vector for input that is empty after stripping and whenever the
model call fails, and the model's vector otherwise; the batch form likewise
never raises, but instead of producing a vector per input it drops inputs
that are empty after stripping, returning the model's vectors for the
surviving cleaned texts (all-zero 384-vectors for all of them when the batch
model call fails, and the empty list when no input survives cleaning). -/
theorem C9_embedding_amended :
    (∀ (f : String → Except Unit (List ℚ)) (text : String),
        trimList text.toList = [] →
        generate_embedding f text = List.replicate EMBEDDING_DIMENSIONS 0)
    ∧ (∀ (f : String → Except Unit (List ℚ)) (text : String),
        f ⟨trimList text.toList⟩ = Except.error () →
        generate_embedding f text = List.replicate EMBEDDING_DIMENSIONS 0)
    ∧ (∀ (f : String → Except Unit (List ℚ)) (text : String) (v : List ℚ),
        trimList text.toList ≠ [] →
        f ⟨trimList text.toList⟩ = Except.ok v →
        generate_embedding f text = v)
    ∧ (∀ (g : List String → Except Unit (List (List ℚ)))
        (texts : List String), cleanedTexts texts = [] →
        generate_embeddings_batch g texts = [])
    ∧ (∀ (g : List String → Except Unit (List (List ℚ)))
        (texts : List String) (vs : List (List ℚ)),
        g (cleanedTexts texts) = Except.ok vs → cleanedTexts texts ≠ [] →
        generate_embeddings_batch g texts = vs)
    ∧ (∀ (g : List String → Except Unit (List (List ℚ)))
        (texts : List String),
        g (cleanedTexts texts) = Except.error () → cleanedTexts texts ≠ [] →
        generate_embeddings_batch g texts
          = List.replicate (cleanedTexts texts).length
              (List.replicate EMBEDDING_DIMENSIONS 0)) := by
  have hne : ∀ texts : List String, cleanedTexts texts ≠ [] → texts ≠ [] := by
    intro texts h htexts
    subst htexts
    exact h rfl
  refine ⟨?_, ?_, ?_, ?_, ?_, ?_⟩
  · intro f text h
    unfold generate_embedding
    rw [h]
    rfl
  · intro f text h
    unfold generate_embedding
    split
    · rfl
    · rw [h]
  · intro f text v htrim hok
    have hs : (⟨trimList text.toList⟩ : String) ≠ "" := fun hcontra =>
      htrim (congrArg String.data hcontra)
    unfold generate_embedding
    rw [if_neg hs, hok]
  · intro g texts h
    simp [generate_embeddings_batch, h]
  · intro g texts vs h hcl
    unfold generate_embeddings_batch
    rw [if_neg (hne texts hcl), if_neg hcl, h]
  · intro g texts h hcl
    unfold generate_embeddings_batch
    rw [if_neg (hne texts hcl), if_neg hcl, h]

/-- Witness for the amended C9: a failing single-text model call yields the
zero vector. -/
theorem C9_embedding_amended_witness :
    generate_embedding encodeFail "some text"
      = List.replicate EMBEDDING_DIMENSIONS 0 :=
  C9_embedding_amended.2.1 encodeFail "some text" rfl

-- ---------------------------------------------------------------------------
-- C6: short content short-circuits summary generation
-- ---------------------------------------------------------------------------

/-- C6 counterexample: a document whose content is `" hi"` (length 3 ≤
max_length) gets the summary `"hi"` — the content is stripped first, so the
returned value is NOT the content verbatim. -/
theorem C6_short_content_cex :
    (get_or_generate_summary llmFail docWs 200 false).1 = "hi"
    ∧ docWs.content = " hi"
    ∧ docWs.content.length ≤ 200
    ∧ (get_or_generate_summary llmFail docWs 200 false).1 ≠ docWs.content :=
  ⟨rfl, rfl, by decide, by decide⟩

/-- C6 amended: whenever generation runs (no truthy cached summary, or
`regenerate` set) and the trimmed content length is ≤ `max_length`,
`get_or_generate_summary` returns the TRIMMED content (hence the content
verbatim exactly when it carries no surrounding whitespace), performs zero
summarizer invocations, and still persists the returned value onto the
document's summary cache. -/
theorem C6_short_content_amended (llm : String → Nat → Except Unit String)
    (doc : Document) (max_length : Nat) (regenerate : Bool)
    (hgen : summaryTruthy doc.summary = false ∨ regenerate = true)
    (hlen : (trimList doc.content.toList).length ≤ max_length) :
    get_or_generate_summary llm doc max_length regenerate
      = ((⟨trimList doc.content.toList⟩ : String),
         { doc with summary := some (⟨trimList doc.content.toList⟩ : String) },
         0) := by
  have hcond : (summaryTruthy doc.summary && !regenerate) = false := by
    rcases hgen with h | h <;> simp [h]
  have hgs : generate_summary llm doc.content max_length
      = ((⟨trimList doc.content.toList⟩ : String), 0) := by
    unfold generate_summary
    by_cases hnil : trimList doc.content.toList = []
    · rw [if_pos hnil, hnil]
    · rw [if_neg hnil, if_pos hlen]
  unfold get_or_generate_summary
  rw [hcond, hgs]
  rfl

/-- Witness for the amended C6: content `" hi"` with no cached summary is
trimmed, returned, cached, with zero summarizer calls. -/
theorem C6_short_content_amended_witness :
    get_or_generate_summary llmFail docWs 200 false
      = (("hi" : String),
         { docWs with summary := some ("hi" : String) }, 0) := by
  have h := C6_short_content_amended llmFail docWs 200 false (Or.inl rfl)
    (by decide)
  exact h.trans (by decide)

/-- Witness for the amended C3 at a concrete result. -/
theorem C3_match_field_amended_witness :
    ((ClientResult.mk cAnn
        (SearchScore.EXACT_NAME / SCORE_NORMALIZATION_FACTOR)
        "email").matchField = "email"
      ∨ (ClientResult.mk cAnn
          (SearchScore.EXACT_NAME / SCORE_NORMALIZATION_FACTOR)
          "email").matchField = "name"
      ∨ (ClientResult.mk cAnn
          (SearchScore.EXACT_NAME / SCORE_NORMALIZATION_FACTOR)
          "email").matchField = "description")
    ∧ (ClientResult.mk cAnn
        (SearchScore.EXACT_NAME / SCORE_NORMALIZATION_FACTOR)
        "email").matchField
      = matchFieldClient cAnn (trimList (lowerList "ann")) :=
  C3_match_field_amended [cAnn] "ann" 10 _ (List.mem_singleton_self _)
